import Mathlib

/-!
# Verification of the Missing Credit Report comparator

A shallow embedding of the reconciliation core of `missing_credit_app.py`:

* string normalization of purchase-order identifiers
  (`clean_po`, `add_spaces`, and their composition `po_norm`);
* feature extraction (`extract_features` with the `Quarter Key` /
  `Drug Category` regex extractions);
* deterministic sorting (`quarter_sort_key`, `sort_df`);
* the bidirectional set difference (`compare_bidirectional`).

Tables (pandas `DataFrame`s) are modelled as a list of column names plus a
list of rows, where a row is an association list from column name to an
optional string cell; `none` models a pandas `NaN` / missing cell.  The
Python regular expressions are modelled as explicit scanners over
`List Char`, restricted to ASCII semantics (`\s` is the six ASCII
whitespace characters, `\d` is `0`-`9`, `[a-z]` is ASCII lowercase, and
`str.lower` is ASCII lowering), which is exactly the data the application
manipulates.  The regex substitutions are written with an explicit fuel
argument (the input length) so that every function reduces in the kernel.
-/

/-! ## Characters: Python `\s`, `\d`, `[a-z]`, `str.lower` -/

/-- ASCII whitespace as matched by Python's `\s` (and stripped by
`str.strip`): space, tab, newline, vertical tab, form feed, carriage
return. -/
def pyIsSpace (c : Char) : Bool :=
  c.toNat == 32 || c.toNat == 9 || c.toNat == 10 || c.toNat == 13 ||
    c.toNat == 11 || c.toNat == 12

/-- ASCII digit, as matched by `\d`. -/
def isDig (c : Char) : Bool := 48 ≤ c.toNat && c.toNat ≤ 57

/-- ASCII lowercase letter, as matched by `[a-z]`. -/
def isLowAZ (c : Char) : Bool := 97 ≤ c.toNat && c.toNat ≤ 122

/-! ## Whitespace removal, stripping, lowering -/

/-- `re.sub(r"\s+", "", s)`: delete every whitespace character. -/
def removeWs (l : List Char) : List Char := l.filter (fun c => !pyIsSpace c)

/-- Python `str.strip()`: drop whitespace from both ends. -/
def pyStrip (l : List Char) : List Char :=
  ((l.dropWhile pyIsSpace).reverse.dropWhile pyIsSpace).reverse

/-- Python `str.lower()` (ASCII): `Char.toLower` on every character. -/
def lowerL (l : List Char) : List Char := l.map Char.toLower

/-! ## The three respacing substitutions of `add_spaces`

Each models one global `re.sub` as a left-to-right, non-overlapping
scanner.  The fuel argument is instantiated with the input length; each
step consumes at least one input character, so the fuel never runs out. -/

/-- `re.sub(r"(q\d{3})(onmk)", r"\1 \2", po)`: insert a space between a
quarter token and an immediately following `onmk`. -/
def sub1go : Nat → List Char → List Char
  | 0, l => l
  | _ + 1, [] => []
  | f + 1, 'q' :: d1 :: d2 :: d3 :: 'o' :: 'n' :: 'm' :: 'k' :: rest =>
    if isDig d1 && isDig d2 && isDig d3 then
      'q' :: d1 :: d2 :: d3 :: ' ' :: 'o' :: 'n' :: 'm' :: 'k' :: sub1go f rest
    else
      'q' :: sub1go f (d1 :: d2 :: d3 :: 'o' :: 'n' :: 'm' :: 'k' :: rest)
  | f + 1, c :: rest => c :: sub1go f rest

def sub1 (l : List Char) : List Char := sub1go l.length l

/-- `re.sub(r"(onmk|onmark)([a-z]+)", r"\1 \2", po)`: insert a space
between a category marker and the letters that follow it.  The Boolean
mode is `true` while emitting the letter run matched by `[a-z]+`
(scanning resumes after the run; the character ending the run is not
lowercase, so no match can start there). -/
def sub2go : Nat → Bool → List Char → List Char
  | 0, _, l => l
  | _ + 1, _, [] => []
  | f + 1, true, c :: rest =>
    if isLowAZ c then c :: sub2go f true rest else c :: sub2go f false rest
  | f + 1, false, 'o' :: 'n' :: 'm' :: 'k' :: c :: rest =>
    if isLowAZ c then
      'o' :: 'n' :: 'm' :: 'k' :: ' ' :: c :: sub2go f true rest
    else
      'o' :: sub2go f false ('n' :: 'm' :: 'k' :: c :: rest)
  | f + 1, false, 'o' :: 'n' :: 'm' :: 'a' :: 'r' :: 'k' :: c :: rest =>
    if isLowAZ c then
      'o' :: 'n' :: 'm' :: 'a' :: 'r' :: 'k' :: ' ' :: c :: sub2go f true rest
    else
      'o' :: sub2go f false ('n' :: 'm' :: 'a' :: 'r' :: 'k' :: c :: rest)
  | f + 1, false, c :: rest => c :: sub2go f false rest

def sub2 (l : List Char) : List Char := sub2go l.length false l

/-- Does the list start with `'%'`? (the literal `%` of `\d+%`). -/
def headPercent : List Char → Bool
  | x :: _ => x == '%'
  | [] => false

/-- `re.sub(r"([a-z])(\d+%)", r"\1 \2", po)`: insert a space between a
letter and an immediately following percentage token.  `\d+` is greedy
and must be followed by `%`, so a match requires the maximal digit run
after the letter to be followed by `%`. -/
def sub3go : Nat → List Char → List Char
  | 0, l => l
  | _ + 1, [] => []
  | f + 1, c :: rest =>
    if isLowAZ c && !(rest.takeWhile isDig).isEmpty &&
        headPercent (rest.dropWhile isDig) then
      c :: ' ' :: (rest.takeWhile isDig ++ '%' :: sub3go f (rest.dropWhile isDig).tail)
    else
      c :: sub3go f rest

def sub3 (l : List Char) : List Char := sub3go l.length l

/-- The character-list form of `clean_po` on a present value:
remove all whitespace, strip, lower-case. -/
def cleanList (l : List Char) : List Char := lowerL (pyStrip (removeWs l))

/-- The character-list form of `add_spaces` on a present value:
lower-case, respace at the three junctions, strip. -/
def addList (l : List Char) : List Char := pyStrip (sub3 (sub2 (sub1 (lowerL l))))

/-- `NoWs l`: no whitespace character occurs in `l`. -/
def NoWs (l : List Char) : Prop := ∀ c ∈ l, pyIsSpace c = false

/-! ## Cells, rows and tables -/

/-- A cell of a table; `none` models pandas `NaN` / a missing value. -/
abbrev Value := Option String

/-- A row: an association list from column name to cell. -/
abbrev Row := List (String × Value)

/-- A table: ordered column names plus rows.  A well-formed pandas frame
has exactly one entry per column in every row; looking up an absent key
yields `none` (`NaN`). -/
structure Table where
  cols : List String
  rows : List Row
  deriving DecidableEq, Repr

/-- Look up a cell by column name (first entry wins, as in a dict). -/
def getCell (r : Row) (c : String) : Value :=
  match r.find? (fun p => p.1 == c) with
  | some p => p.2
  | none => none

/-- `row[c] = v`: overwrite the entry in place if the key is present,
otherwise append it (pandas appends new columns at the end). -/
def setCell (r : Row) (c : String) (v : Value) : Row :=
  if r.any (fun p => p.1 == c) then
    r.map (fun p => if p.1 == c then (c, v) else p)
  else
    r ++ [(c, v)]

/-- Add a column name if absent (assignment of a new column). -/
def addColL (cols : List String) (c : String) : List String :=
  if cols.contains c then cols else cols ++ [c]

/-- Column union in `pd.concat` order: the first frame's columns, then
the second frame's columns that are new. -/
def listUnion (xs ys : List String) : List String :=
  xs ++ ys.filter (fun c => !xs.contains c)

/-! ## The normalizer: `clean_po`, `add_spaces` -/

/-- `clean_po(po)`: `''` for a null value, otherwise
`re.sub(r"\s+", "", str(po)).strip().lower()`. -/
def clean_po (v : Value) : String :=
  match v with
  | none => ""
  | some s => ⟨cleanList s.data⟩

/-- `add_spaces(po)`: `''` for a null value, otherwise lower-case the
string, apply the three respacing substitutions, and strip. -/
def add_spaces (v : Value) : String :=
  match v with
  | none => ""
  | some s => ⟨addList s.data⟩

/-- The full identifier normalization applied to the `PO #` column:
`add_spaces(clean_po(x))`. -/
def po_norm (v : Value) : String := add_spaces (some (clean_po v))

/-! ## Feature extraction: `Quarter Key` and `Drug Category` -/

/-- `str.extract(r"^(q\d{3})")`: the leading quarter token, or `NaN`. -/
def quarterOf (s : String) : Value :=
  match s.data with
  | 'q' :: d1 :: d2 :: d3 :: _ =>
    if isDig d1 && isDig d2 && isDig d3 then some ⟨['q', d1, d2, d3]⟩ else none
  | _ => none

/-- The `\s+rbt` tail of the category pattern: at least one whitespace
character, then the literal `rbt`.  Because `r` is not whitespace, only
the maximal whitespace run can precede `rbt`. -/
def rbtTail (u : List Char) : Bool :=
  !(u.takeWhile pyIsSpace).isEmpty &&
    (match u.dropWhile pyIsSpace with
     | 'r' :: 'b' :: 't' :: _ => true
     | _ => false)

/-- The non-greedy capture `(.+?)` followed by `\s+rbt`: try captures of
increasing length (each captured character must not be a newline, since
`.` does not match `\n`). -/
def capSearch (acc : List Char) : List Char → Option (List Char)
  | [] => none
  | x :: xs =>
    if x == '\n' then none
    else if rbtTail xs then some (acc ++ [x])
    else capSearch (acc ++ [x]) xs

/-- Backtracking over the first `\s+` of the category pattern: greedy,
so try `j+1` whitespace characters first, then shorter runs down to 1. -/
def kTry (r : List Char) : Nat → Option (List Char)
  | 0 => none
  | j + 1 =>
    match capSearch [] (r.drop (j + 1)) with
    | some cap => some cap
    | none => kTry r j

/-- Try the whole pattern `(?:onmk|onmark)\s+(.+?)\s+rbt` anchored at the
head of the list.  The two markers differ at their fourth character, so
at most one alternative can match. -/
def tryCatAt (l : List Char) : Option (List Char) :=
  match l with
  | 'o' :: 'n' :: 'm' :: 'k' :: r => kTry r (r.takeWhile pyIsSpace).length
  | 'o' :: 'n' :: 'm' :: 'a' :: 'r' :: 'k' :: r => kTry r (r.takeWhile pyIsSpace).length
  | _ => none

/-- `re.search`: try the pattern at each position, left to right. -/
def findCat : Nat → List Char → Option (List Char)
  | 0, _ => none
  | _ + 1, [] => none
  | f + 1, l@(_ :: rest) =>
    match tryCatAt l with
    | some cap => some cap
    | none => findCat f rest

/-- `str.extract(r"(?:onmk|onmark)\s+(.+?)\s+rbt")`: the category label,
or `NaN` when the pattern does not match. -/
def categoryOf (s : String) : Value :=
  (findCat s.data.length s.data).map (fun l => (⟨l⟩ : String))

/-- The row filter `df["PO #"].notna() & (df["PO #"] != '')`. -/
def nonBlankPO (r : Row) : Bool :=
  match getCell r "PO #" with
  | none => false
  | some s => s != ""

/-- `extract_features(df)`: normalize the `PO #` column in place, drop
rows whose identifier is blank, then extract `Quarter Key` and
`Drug Category` from the normalized identifier. -/
def extract_features (df : Table) : Table :=
  let rows1 := df.rows.map (fun r => setCell r "PO #" (some (po_norm (getCell r "PO #"))))
  let rows2 := rows1.filter nonBlankPO
  let rows3 := rows2.map (fun r =>
    setCell (setCell r "Quarter Key" (quarterOf ((getCell r "PO #").getD "")))
      "Drug Category" (categoryOf ((getCell r "PO #").getD "")))
  { cols := addColL (addColL df.cols "Quarter Key") "Drug Category"
    rows := rows3 }

/-! ## Sorting: `quarter_sort_key`, `sort_df` -/

/-- `int(s)` on a string: optional surrounding whitespace, an optional
sign, then a nonempty run of ASCII digits; anything else raises (and so
yields `none` here). -/
def pyParseInt (l : List Char) : Option Int :=
  let t := pyStrip l
  match t with
  | '+' :: ds =>
    if !ds.isEmpty && ds.all isDig then some (ds.foldl (fun a c => 10 * a + (c.toNat - 48)) 0 : Nat) else none
  | '-' :: ds =>
    if !ds.isEmpty && ds.all isDig then some (-((ds.foldl (fun a c => 10 * a + (c.toNat - 48)) 0 : Nat) : Int)) else none
  | ds =>
    if !ds.isEmpty && ds.all isDig then some (ds.foldl (fun a c => 10 * a + (c.toNat - 48)) 0 : Nat) else none

/-- `quarter_sort_key(q)`: `int(q[1:])` when `q` is a string of length
more than one, `0` otherwise or when `int` raises. -/
def quarter_sort_key (q : Value) : Int :=
  match q with
  | none => 0
  | some s => if s.length > 1 then (pyParseInt (s.data.drop 1)).getD 0 else 0

/-- The composite sort key of `sort_df`: primarily `Drug Category`
(ascending; pandas `na_position='last'` puts absent values after all
present ones, modelled by the leading Boolean), secondarily the numeric
quarter rank. -/
def sortKey (r : Row) : Bool ×ₗ String ×ₗ Int :=
  toLex ((getCell r "Drug Category").isNone,
    toLex ((getCell r "Drug Category").getD "", quarter_sort_key (getCell r "Quarter Key")))

/-- The row ordering used by `sort_df`. -/
def rowLe (a b : Row) : Prop := sortKey a ≤ sortKey b

instance : DecidableRel rowLe := fun a b => inferInstanceAs (Decidable (_ ≤ _))

instance : IsTotal Row rowLe := ⟨fun a b => le_total (sortKey a) (sortKey b)⟩

instance : IsTrans Row rowLe := ⟨fun _ _ _ h h' => le_trans h h'⟩

/-- Drop the transient `Quarter Sort` column from a row. -/
def dropQS (r : Row) : Row := r.filter (fun p => p.1 != "Quarter Sort")

/-- `sort_df(df)`: add a `Quarter Sort` rank column, sort by
`["Drug Category", "Quarter Sort"]` (stable, `NaN` last), and drop the
rank column again.  Multi-column `sort_values` is a stable lexicographic
sort, modelled by `insertionSort` on `sortKey`. -/
def sort_df (df : Table) : Table :=
  { cols := df.cols.filter (fun c => c != "Quarter Sort")
    rows := (List.insertionSort rowLe df.rows).map dropQS }

/-! ## The reconciler: `compare_bidirectional` -/

/-- The identifier column of a table, in row order (`df["PO #"]`). -/
def idList (df : Table) : List Value := df.rows.map (fun r => getCell r "PO #")

/-- The filter `~df["PO #"].isin(ids)`.  pandas `isin` matches `NaN`
with `NaN`, which is the `none = none` case of `Option` equality. -/
def keep (ids : List Value) (r : Row) : Bool := !(ids.contains (getCell r "PO #"))

/-- The fixed report columns. -/
def columns_to_keep : List String :=
  ["PO #", "DESCRIPTION", "CREDIT AMT", "Missing In", "Drug Category", "Quarter Key"]

/-- The fill loop: for each report column absent from the table, add it
with the empty string in every row. -/
def fillCols : List String → List String × List Row → List String × List Row
  | [], st => st
  | c :: cs, (cols, rows) =>
    if cols.contains c then fillCols cs (cols, rows)
    else fillCols cs (cols ++ [c], rows.map (fun r => setCell r c (some "")))

/-- `compare_bidirectional(df1, df2)`: rows of `df1` whose identifier is
absent from `df2` tagged `"Comparer"`, then rows of `df2` whose
identifier is absent from `df1` tagged `"Base"`, concatenated, repaired
with empty strings for report columns missing from the combined frame,
and projected onto the report columns. -/
def compare_bidirectional (df1 df2 : Table) : Table :=
  let m2 := (df1.rows.filter (keep (idList df2))).map
    (fun r => setCell r "Missing In" (some "Comparer"))
  let m1 := (df2.rows.filter (keep (idList df1))).map
    (fun r => setCell r "Missing In" (some "Base"))
  let cols0 := listUnion (addColL df1.cols "Missing In") (addColL df2.cols "Missing In")
  let st := fillCols columns_to_keep (cols0, m2 ++ m1)
  { cols := columns_to_keep
    rows := st.2.map (fun r => columns_to_keep.map (fun c => (c, getCell r c))) }

/-- Is a column present in either input table?  After tagging and
concatenation these are exactly the columns of the combined frame other
than `Missing In`. -/
def inUnion (df1 df2 : Table) (c : String) : Bool :=
  df1.cols.contains c || df2.cols.contains c

/-- The report row produced from a source row `r`: the fixed columns in
order, with the tag in `Missing In`, the source cell for columns present
in either input (which may be `none`, i.e. `NaN`), and `""` for columns
present in neither. -/
def reportRow (df1 df2 : Table) (tag : String) (r : Row) : Row :=
  columns_to_keep.map (fun c =>
    (c, if c = "Missing In" then some tag
        else if inUnion df1 df2 c then getCell r c else some ""))

/-- One row's worth of the fill loop of `compare_bidirectional`. -/
def fillRow : List String → List String → Row → Row
  | [], _, r => r
  | c :: cs, cols, r =>
    if cols.contains c then fillRow cs cols r
    else fillRow cs (cols ++ [c]) (setCell r c (some ""))

/-- The combined-frame column list used inside `compare_bidirectional`. -/
def combCols (df1 df2 : Table) : List String :=
  listUnion (addColL df1.cols "Missing In") (addColL df2.cols "Missing In")

/-- Rows of a report restricted to a given `Missing In` tag. -/
def taggedRows (t : Table) (tag : String) : List Row :=
  t.rows.filter (fun r => getCell r "Missing In" == some tag)

/-- Drop the `Missing In` column of a report row. -/
def dropMI (r : Row) : Row := r.filter (fun p => p.1 != "Missing In")

/-! ## The alternate single-direction diff mode -/

/-- Deduplicate, keeping the first occurrence of each row. -/
def dedupRows : List Row → List Row
  | [] => []
  | r :: rs => r :: (dedupRows rs).filter (fun x => x ≠ r)

/-- Modelled from the spec: the alternate single-direction diff mode is
described in §4.2 of the specification but its implementation is not
under `src/` (only the bidirectional variant is).  Per the spec it
compares over the intersection of column names common to both tables,
after de-duplicating each side on that common-column set, and reports a
hard `"no common columns"` error when the tables share no columns. -/
def diff_mode (base comparer : Table) : Except String Table :=
  let common := base.cols.filter (fun c => comparer.cols.contains c)
  if common.isEmpty then
    .error "no common columns"
  else
    let proj := fun (r : Row) => common.map (fun c => (c, getCell r c))
    let baseP := dedupRows (base.rows.map proj)
    let compP := dedupRows (comparer.rows.map proj)
    .ok { cols := common, rows := compP.filter (fun r => !baseP.contains r) }

/-! ## Concrete tables used to check the theorems on explicit inputs -/

/-- Two one-column tables sharing the identifier `"c"`. -/
def exBase : Table :=
  { cols := ["PO #"]
    rows := [[("PO #", some "a")], [("PO #", some "c")]] }

def exComp : Table :=
  { cols := ["PO #"]
    rows := [[("PO #", some "b")], [("PO #", some "c")]] }

/-- A table whose first row has no `Drug Category` and whose second has
category `"a"`. -/
def exSortT : Table :=
  { cols := ["PO #", "Quarter Key", "Drug Category"]
    rows := [[("PO #", some "x"), ("Quarter Key", none), ("Drug Category", none)],
      [("PO #", some "y"), ("Quarter Key", some "q101"), ("Drug Category", some "a")]] }

/-- A pair of tables with asymmetric columns: `DESCRIPTION` exists only
in the comparer. -/
def exProjBase : Table :=
  { cols := ["PO #"]
    rows := [[("PO #", some "a")]] }

def exProjComp : Table :=
  { cols := ["PO #", "DESCRIPTION"]
    rows := [[("PO #", some "b"), ("DESCRIPTION", some "d")]] }

/-- A table with a null `PO #` in the first row. -/
def exNullPO : Table :=
  { cols := ["PO #"]
    rows := [[("PO #", none)], [("PO #", some "Q101ONMKdrugA5%")]] }

/-- Raw tables for the normalization-overwrite check. -/
def exRawBase : Table :=
  { cols := ["PO #"]
    rows := [[("PO #", some "Q101 ONMK drugA 5%")]] }

def exRawComp : Table :=
  { cols := ["PO #"]
    rows := [[("PO #", some "Q202 ONMK x RBT")]] }

/-- Tables with disjoint column sets for the alternate diff mode. -/
def exDisjBase : Table :=
  { cols := ["PO #"]
    rows := [] }

def exDisjComp : Table :=
  { cols := ["X"]
    rows := [[("X", some "1")]] }


/-! ## Lemmas -/

/-- Characters with code at least 33 are not whitespace. -/
theorem pyIsSpace_false_of_ge {c : Char} (h : 33 ≤ c.toNat) : pyIsSpace c = false := by
  simp only [pyIsSpace, Bool.or_eq_false_iff, beq_eq_false_iff_ne, ne_eq]
  omega

theorem toNat_ofNat_add32 {n : Nat} (h1 : 65 ≤ n) (h2 : n ≤ 90) :
    (Char.ofNat (n + 32)).toNat = n + 32 := by
  interval_cases n <;> decide

theorem pyIsSpace_toLower (c : Char) : pyIsSpace (Char.toLower c) = pyIsSpace c := by
  by_cases  h : 65 ≤ c.toNat ∧ c.toNat ≤ 90
  · rw [show Char.toLower c = Char.ofNat (c.toNat + 32) by
      simp [Char.toLower, h.1, h.2]]
    rw [pyIsSpace_false_of_ge (c := c) (by omega),
      pyIsSpace_false_of_ge (by rw [toNat_ofNat_add32 h.1 h.2]; omega)]
  · rw [show Char.toLower c = c by simp [Char.toLower]; omega]

theorem toLower_toLower (c : Char) : Char.toLower (Char.toLower c) = Char.toLower c := by
  by_cases  h : 65 ≤ c.toNat ∧ c.toNat ≤ 90
  · have h1 : Char.toLower c = Char.ofNat (c.toNat + 32) := by
      simp [Char.toLower, h.1, h.2]
    rw [h1]
    have h2 := toNat_ofNat_add32 h.1 h.2
    simp [Char.toLower, h2]
    omega
  · have h1 : Char.toLower c = c := by simp [Char.toLower]; omega
    rw [h1, h1]

theorem lowerL_idem (l : List Char) : lowerL (lowerL l) = lowerL l := by
  simp [lowerL, List.map_map, Function.comp_def, toLower_toLower]

theorem removeWs_of_noWs {l : List Char} (h : NoWs l) : removeWs l = l := by
  rw [removeWs, List.filter_eq_self]
  intro a ha
  simp [h a ha]

theorem noWs_removeWs (l : List Char) : NoWs (removeWs l) := by
  intro c hc
  have := (List.mem_filter.mp hc).2
  simpa using this

theorem removeWs_dropWhile (l : List Char) :
    removeWs (l.dropWhile pyIsSpace) = removeWs l := by
  induction l with
  | nil => rfl
  | cons c t ih =>
    by_cases  h : pyIsSpace c = true
    · rw [List.dropWhile_cons_of_pos h, ih]
      simp [removeWs, h]
    · rw [List.dropWhile_cons_of_neg h]

theorem removeWs_reverse (l : List Char) : removeWs l.reverse = (removeWs l).reverse :=
  List.filter_reverse _ l

theorem removeWs_pyStrip (l : List Char) : removeWs (pyStrip l) = removeWs l := by
  rw [pyStrip, removeWs_reverse, removeWs_dropWhile, removeWs_reverse,
    List.reverse_reverse, removeWs_dropWhile]

theorem mem_pyStrip {c : Char} {l : List Char} (h : c ∈ pyStrip l) : c ∈ l := by
  rw [pyStrip, List.mem_reverse] at h
  have h1 := ((List.dropWhile_sublist pyIsSpace).mem h)
  rw [List.mem_reverse] at h1
  exact (List.dropWhile_sublist pyIsSpace).mem h1

theorem noWs_pyStrip {l : List Char} (h : NoWs l) : NoWs (pyStrip l) :=
  fun c hc => h c (mem_pyStrip hc)

theorem pyStrip_of_noWs {l : List Char} (h : NoWs l) : pyStrip l = l := by
  have hdw : ∀ m : List Char, NoWs m → m.dropWhile pyIsSpace = m := by
    intro m hm
    cases m with
    | nil => rfl
    | cons c t => exact List.dropWhile_cons_of_neg (by simp [hm c (by simp)])
  rw [pyStrip, hdw _ h, hdw _ (fun c hc => h c (List.mem_reverse.mp hc)),
    List.reverse_reverse]

theorem removeWs_lowerL (l : List Char) : removeWs (lowerL l) = lowerL (removeWs l) := by
  rw [removeWs, lowerL, List.filter_map]
  congr 1
  exact List.filter_congr (by intro a _; simp [Function.comp, pyIsSpace_toLower])

theorem noWs_lowerL {l : List Char} (h : NoWs l) : NoWs (lowerL l) := by
  intro c hc
  rw [lowerL] at hc
  obtain ⟨a, ha, rfl⟩ := List.mem_map.mp hc
  rw [pyIsSpace_toLower]
  exact h a ha

theorem pyIsSpace_of_isDig {c : Char} (h : isDig c = true) : pyIsSpace c = false := by
  apply pyIsSpace_false_of_ge
  simp only [isDig, Bool.and_eq_true, decide_eq_true_eq] at h
  omega

theorem pyIsSpace_of_isLowAZ {c : Char} (h : isLowAZ c = true) : pyIsSpace c = false := by
  apply pyIsSpace_false_of_ge
  simp only [isLowAZ, Bool.and_eq_true, decide_eq_true_eq] at h
  omega

theorem removeWs_cons_pos {c : Char} {t : List Char} (h : pyIsSpace c = true) :
    removeWs (c :: t) = removeWs t := by
  simp [removeWs, h]

theorem removeWs_cons_neg {c : Char} {t : List Char} (h : pyIsSpace c = false) :
    removeWs (c :: t) = c :: removeWs t := by
  simp [removeWs, h]

theorem removeWs_sub1go : ∀ f l, removeWs (sub1go f l) = removeWs l := by
  intro f l
  induction f, l using sub1go.induct with
  | case1 l => rfl
  | case2 => rfl
  | case3 f d1 d2 d3 rest hd ih =>
    rw [show Nat.succ f = f + 1 from rfl]
    simp only [sub1go, if_pos hd]
    simp only [Bool.and_eq_true] at hd
    simp only [removeWs_cons_neg (c := 'q') (by decide),
      removeWs_cons_neg (c := 'o') (by decide), removeWs_cons_neg (c := 'n') (by decide),
      removeWs_cons_neg (c := 'm') (by decide), removeWs_cons_neg (c := 'k') (by decide),
      removeWs_cons_pos (c := ' ') (by decide),
      removeWs_cons_neg (pyIsSpace_of_isDig hd.1.1),
      removeWs_cons_neg (pyIsSpace_of_isDig hd.1.2),
      removeWs_cons_neg (pyIsSpace_of_isDig hd.2), ih]
  | case4 f d1 d2 d3 rest hd ih =>
    rw [show Nat.succ f = f + 1 from rfl]
    simp only [sub1go, if_neg hd]
    simp only [removeWs_cons_neg (c := 'q') (by decide), ih]
  | case5 f c rest h1 ih =>
    rw [show Nat.succ f = f + 1 from rfl]
    rw [show sub1go (f + 1) (c :: rest) = c :: sub1go f rest from by
      simp only [sub1go]]
    by_cases  hc : pyIsSpace c = true
    · rw [removeWs_cons_pos hc, removeWs_cons_pos hc, ih]
    · rw [removeWs_cons_neg (eq_false_of_ne_true hc), removeWs_cons_neg (eq_false_of_ne_true hc), ih]

theorem removeWs_sub2go : ∀ f b l, removeWs (sub2go f b l) = removeWs l := by
  intro f b l
  induction f, b, l using sub2go.induct with
  | case1 b l => rfl
  | case2 => simp only [sub2go]
  | case3 f c rest h ih =>
    rw [show Nat.succ f = f + 1 from rfl]
    simp only [sub2go, if_pos h]
    rw [removeWs_cons_neg (pyIsSpace_of_isLowAZ h), removeWs_cons_neg (pyIsSpace_of_isLowAZ h), ih]
  | case4 f c rest h ih =>
    rw [show Nat.succ f = f + 1 from rfl]
    simp only [sub2go, if_neg h]
    by_cases  hc : pyIsSpace c = true
    · rw [removeWs_cons_pos hc, removeWs_cons_pos hc, ih]
    · rw [removeWs_cons_neg (eq_false_of_ne_true hc), removeWs_cons_neg (eq_false_of_ne_true hc), ih]
  | case5 f c rest h ih =>
    rw [show Nat.succ f = f + 1 from rfl]
    simp only [sub2go, if_pos h]
    simp only [removeWs_cons_neg (c := 'o') (by decide), removeWs_cons_neg (c := 'n') (by decide),
      removeWs_cons_neg (c := 'm') (by decide), removeWs_cons_neg (c := 'k') (by decide),
      removeWs_cons_pos (c := ' ') (by decide),
      removeWs_cons_neg (pyIsSpace_of_isLowAZ h), ih]
  | case6 f c rest h ih =>
    rw [show Nat.succ f = f + 1 from rfl]
    simp only [sub2go, if_neg h]
    simp only [removeWs_cons_neg (c := 'o') (by decide), ih]
  | case7 f c rest h ih =>
    rw [show Nat.succ f = f + 1 from rfl]
    simp only [sub2go, if_pos h]
    simp only [removeWs_cons_neg (c := 'o') (by decide), removeWs_cons_neg (c := 'n') (by decide),
      removeWs_cons_neg (c := 'm') (by decide), removeWs_cons_neg (c := 'a') (by decide),
      removeWs_cons_neg (c := 'r') (by decide), removeWs_cons_neg (c := 'k') (by decide),
      removeWs_cons_pos (c := ' ') (by decide),
      removeWs_cons_neg (pyIsSpace_of_isLowAZ h), ih]
  | case8 f c rest h ih =>
    rw [show Nat.succ f = f + 1 from rfl]
    simp only [sub2go, if_neg h]
    simp only [removeWs_cons_neg (c := 'o') (by decide), ih]
  | case9 f c rest h1 h2 ih =>
    rw [show Nat.succ f = f + 1 from rfl]
    rw [show sub2go (f + 1) false (c :: rest) = c :: sub2go f false rest from by
      simp only [sub2go]]
    by_cases  hc : pyIsSpace c = true
    · rw [removeWs_cons_pos hc, removeWs_cons_pos hc, ih]
    · rw [removeWs_cons_neg (eq_false_of_ne_true hc), removeWs_cons_neg (eq_false_of_ne_true hc), ih]

theorem removeWs_append (l1 l2 : List Char) :
    removeWs (l1 ++ l2) = removeWs l1 ++ removeWs l2 := by
  simp [removeWs]

theorem removeWs_takeWhile_isDig (l : List Char) :
    removeWs (l.takeWhile isDig) = l.takeWhile isDig := by
  rw [removeWs, List.filter_eq_self]
  intro a ha
  simp [pyIsSpace_of_isDig (List.mem_takeWhile_imp ha)]

theorem dropWhile_of_headPercent {l : List Char} (h : headPercent (l.dropWhile isDig) = true) :
    l.dropWhile isDig = '%' :: (l.dropWhile isDig).tail := by
  rcases  hd : l.dropWhile isDig with _ | ⟨x, t⟩
  · rw [hd] at h
    simp [headPercent] at h
  · rw [hd] at h
    have hx : x = '%' := by
      simpa [headPercent] using h
    simp [hx]

theorem removeWs_sub3go : ∀ f l, removeWs (sub3go f l) = removeWs l := by
  intro f l
  induction f, l using sub3go.induct with
  | case1 l => rfl
  | case2 => rfl
  | case3 f c rest h ih =>
    rw [show Nat.succ f = f + 1 from rfl]
    simp only [sub3go, if_pos h]
    simp only [Bool.and_eq_true] at h
    rw [removeWs_cons_neg (pyIsSpace_of_isLowAZ h.1.1),
      removeWs_cons_pos (by decide), removeWs_append, removeWs_takeWhile_isDig,
      removeWs_cons_neg (c := '%') (by decide), ih]
    conv_rhs => rw [show rest = rest.takeWhile isDig ++ rest.dropWhile isDig from
      (List.takeWhile_append_dropWhile isDig rest).symm]
    rw [removeWs_cons_neg (pyIsSpace_of_isLowAZ h.1.1), removeWs_append]
    conv_rhs => rw [dropWhile_of_headPercent h.2]
    rw [removeWs_takeWhile_isDig, removeWs_cons_neg (c := '%') (by decide)]
  | case4 f c rest h ih =>
    rw [show Nat.succ f = f + 1 from rfl]
    simp only [sub3go, if_neg h]
    by_cases  hc : pyIsSpace c = true
    · rw [removeWs_cons_pos hc, removeWs_cons_pos hc, ih]
    · rw [removeWs_cons_neg (eq_false_of_ne_true hc), removeWs_cons_neg (eq_false_of_ne_true hc), ih]

theorem noWs_cleanList (l : List Char) : NoWs (cleanList l) :=
  noWs_lowerL (noWs_pyStrip (noWs_removeWs l))

theorem lowerL_cleanList (l : List Char) : lowerL (cleanList l) = cleanList l :=
  lowerL_idem _

theorem removeWs_addList (l : List Char) : removeWs (addList l) = removeWs (lowerL l) := by
  rw [addList, removeWs_pyStrip, sub3, removeWs_sub3go, sub2, removeWs_sub2go,
    sub1, removeWs_sub1go]

theorem cleanList_addList {m : List Char} (h1 : lowerL m = m) (h2 : NoWs m) :
    cleanList (addList m) = m := by
  rw [cleanList, removeWs_addList, h1, removeWs_of_noWs h2, pyStrip_of_noWs h2, h1]

theorem cleanList_eq_removeWs_lowerL (l : List Char) :
    cleanList l = removeWs (lowerL l) := by
  rw [cleanList, pyStrip_of_noWs (noWs_removeWs l), removeWs_lowerL]

theorem po_norm_data (v : Option String) :
    (po_norm v).data = addList (cleanList ((v.getD "").data)) := by
  cases v <;> rfl

/-- Idempotence of the PO normalization. -/
theorem po_norm_idem (v : Option String) : po_norm (some (po_norm v)) = po_norm v := by
  apply String.ext
  rw [po_norm_data (some (po_norm v))]
  rw [show ((some (po_norm v)).getD "") = po_norm v from rfl]
  rw [po_norm_data v, cleanList_addList (lowerL_cleanList _) (noWs_cleanList _)]

/-- Whitespace/case invariance of the PO normalization. -/
theorem po_norm_equiv {x y : String}
    (h : removeWs (lowerL x.data) = removeWs (lowerL y.data)) :
    po_norm (some x) = po_norm (some y) := by
  apply String.ext
  rw [po_norm_data (some x), po_norm_data (some y)]
  rw [show ((some x).getD "") = x from rfl, show ((some y).getD "") = y from rfl]
  rw [cleanList_eq_removeWs_lowerL, cleanList_eq_removeWs_lowerL, h]

theorem getCell_nil (c : String) : getCell [] c = none := rfl

theorem getCell_cons (p : String × Value) (t : Row) (c : String) :
    getCell (p :: t) c = if p.1 = c then p.2 else getCell t c := by
  by_cases  h : p.1 = c
  · rw [getCell, List.find?_cons_of_pos _ (by simpa using h), if_pos h]
  · rw [getCell, List.find?_cons_of_neg _ (by simpa using h), if_neg h, getCell]

theorem getCell_setCell_self (r : Row) (c : String) (v : Value) :
    getCell (setCell r c v) c = v := by
  rw [setCell]
  split
  · next h =>
    induction r with
    | nil => simp at h
    | cons p t ih =>
      rw [List.map_cons]
      by_cases  hp : p.1 = c
      · rw [if_pos (by simpa using hp), getCell_cons, if_pos rfl]
      · rw [if_neg (by simpa using hp), getCell_cons, if_neg hp]
        refine ih ?_
        have h2 : (p.1 == c) = true ∨ (t.any fun p => p.1 == c) = true := by
          simpa using h
        rcases  h2 with h1 | h1
        · exact absurd (by simpa using h1) hp
        · exact h1
  · next h =>
    rw [getCell, List.find?_append, List.find?_eq_none.mpr, Option.none_or]
    · simp [List.find?]
    · intro x hx
      simp only [List.any_eq_true] at h
      exact fun hc => h ⟨x, hx, hc⟩

theorem getCell_setCell_ne (r : Row) {c c' : String} (v : Value) (h : c' ≠ c) :
    getCell (setCell r c v) c' = getCell r c' := by
  rw [setCell]
  split
  · next hany =>
    clear hany
    induction r with
    | nil => rfl
    | cons p t ih =>
      rw [List.map_cons]
      by_cases  hp : p.1 = c
      · rw [if_pos (by simpa using hp), getCell_cons, getCell_cons,
          if_neg (fun hcc => h hcc.symm), if_neg (fun hcc => h (hp ▸ hcc).symm)]
        exact ih
      · rw [if_neg (by simpa using hp), getCell_cons, getCell_cons]
        by_cases  hpc : p.1 = c'
        · rw [if_pos hpc, if_pos hpc]
        · rw [if_neg hpc, if_neg hpc]
          exact ih
  · rw [getCell, List.find?_append, getCell]
    have hone : List.find? (fun p => p.1 == c') [(c, v)] = none := by
      rw [List.find?_cons_of_neg _ (by simpa using fun hcc => h hcc.symm)]
      rfl
    rw [hone, Option.or_none]

theorem fillCols_snd : ∀ cs cols rows, (fillCols cs (cols, rows)).2 = rows.map (fillRow cs cols) := by
  intro cs
  induction cs with
  | nil =>
    intro cols rows
    simp [fillCols, fillRow]
  | cons c cs ih =>
    intro cols rows
    rw [fillCols]
    split
    · next h =>
      rw [ih]
      congr 1
      funext r
      rw [fillRow, if_pos h]
    · next h =>
      rw [ih, List.map_map]
      congr 1
      funext r
      rw [Function.comp_apply, fillRow, if_neg h]

theorem scontains_iff {l : List String} {a : String} : l.contains a = true ↔ a ∈ l := by
  simp [List.contains, List.elem_iff]

theorem getCell_fillRow : ∀ cs cols (r : Row) (x : String), cs.Nodup →
    getCell (fillRow cs cols r) x =
      if x ∈ cs ∧ ¬cols.contains x then some "" else getCell r x := by
  intro cs
  induction cs with
  | nil =>
    intro cols r x _
    simp [fillRow]
  | cons c cs ih =>
    intro cols r x hnd
    rw [List.nodup_cons] at hnd
    rw [fillRow]
    split
    · next hc =>
      rw [ih _ _ _ hnd.2]
      by_cases  hx : x = c
      · subst hx
        rw [if_neg (by simp [hnd.1]), if_neg (fun hm => hm.2 hc)]
      · by_cases  hmem : x ∈ cs ∧ ¬cols.contains x
        · rw [if_pos hmem, if_pos ⟨List.mem_cons_of_mem _ hmem.1, hmem.2⟩]
        · rw [if_neg hmem, if_neg (by
            rintro ⟨hmem1, hmem2⟩
            rcases  List.mem_cons.mp hmem1 with h1 | h1
            · exact hx h1
            · exact hmem ⟨h1, hmem2⟩)]
    · next hc =>
      rw [ih _ _ _ hnd.2]
      by_cases  hx : x = c
      · subst hx
        rw [if_neg (by simp [hnd.1]), getCell_setCell_self,
          if_pos ⟨List.mem_cons_self _ _, hc⟩]
      · rw [getCell_setCell_ne _ _ hx]
        by_cases  hmem : x ∈ cs ∧ ¬cols.contains x
        · rw [if_pos ⟨hmem.1, by
            simp only [scontains_iff, List.mem_append, List.mem_singleton] at *
            rintro (h1 | h1)
            · exact hmem.2 h1
            · exact hx h1⟩,
            if_pos ⟨List.mem_cons_of_mem _ hmem.1, hmem.2⟩]
        · rw [if_neg (by
            rintro ⟨hmem1, hmem2⟩
            exact hmem ⟨hmem1, by
              simp only [scontains_iff, List.mem_append, List.mem_singleton] at hmem2 ⊢
              exact fun hcc => hmem2 (Or.inl hcc)⟩), if_neg (by
            rintro ⟨hmem1, hmem2⟩
            rcases  List.mem_cons.mp hmem1 with h1 | h1
            · exact hx h1
            · exact hmem ⟨h1, hmem2⟩)]

theorem contains_addColL_self (xs : List String) (c : String) :
    (addColL xs c).contains c = true := by
  rw [addColL]
  split
  · assumption
  · simp [scontains_iff]

theorem contains_addColL_ne (xs : List String) {c c' : String} (h : c ≠ c') :
    (addColL xs c').contains c = xs.contains c := by
  rw [addColL]
  split
  · rfl
  · rw [Bool.eq_iff_iff]
    simp only [scontains_iff, List.mem_append, List.mem_singleton]
    constructor
    · rintro (h1 | h1)
      · exact h1
      · exact absurd h1 h
    · exact Or.inl

theorem contains_listUnion (xs ys : List String) (c : String) :
    (listUnion xs ys).contains c = (xs.contains c || ys.contains c) := by
  rw [listUnion, Bool.eq_iff_iff]
  simp only [scontains_iff, Bool.or_eq_true, List.mem_append, List.mem_filter,
    Bool.not_eq_true', ← Bool.not_eq_true]
  constructor
  · rintro (h1 | ⟨h1, _⟩)
    · exact Or.inl h1
    · exact Or.inr h1
  · rintro (h1 | h1)
    · exact Or.inl h1
    · by_cases  hx : c ∈ xs
      · exact Or.inl hx
      · exact Or.inr ⟨h1, by simpa [scontains_iff] using hx⟩

theorem contains_combCols (df1 df2 : Table) {c : String} (h : c ≠ "Missing In") :
    (combCols df1 df2).contains c = inUnion df1 df2 c := by
  rw [combCols, contains_listUnion, contains_addColL_ne _ h, contains_addColL_ne _ h, inUnion]

theorem contains_combCols_mi (df1 df2 : Table) :
    (combCols df1 df2).contains "Missing In" = true := by
  rw [combCols, contains_listUnion, contains_addColL_self]
  rfl

theorem nodup_columns_to_keep : columns_to_keep.Nodup := by decide

/-- The projection of one filled, tagged source row is `reportRow`. -/
theorem proj_fill_tagged (df1 df2 : Table) (tag : String) (r : Row) :
    columns_to_keep.map (fun c =>
      (c, getCell (fillRow columns_to_keep (combCols df1 df2)
            (setCell r "Missing In" (some tag))) c)) = reportRow df1 df2 tag r := by
  rw [reportRow]
  apply List.map_congr_left
  intro c hc
  rw [Prod.mk.injEq]
  refine ⟨rfl, ?_⟩
  rw [getCell_fillRow _ _ _ _ nodup_columns_to_keep]
  by_cases  hmi : c = "Missing In"
  · subst hmi
    rw [if_neg (fun hm => hm.2 (contains_combCols_mi df1 df2)), if_pos rfl,
      getCell_setCell_self]
  · rw [if_neg hmi]
    rcases  hu : inUnion df1 df2 c with _ | _
    · rw [if_pos ⟨hc, by rw [contains_combCols _ _ hmi, hu]; simp⟩, if_neg (by simp)]
    · rw [if_neg (fun hm => hm.2 (by rw [contains_combCols _ _ hmi, hu])), if_pos rfl,
        getCell_setCell_ne _ _ hmi]

/-- Structure of the report: the `df1` rows missing from `df2`, tagged
`"Comparer"`, followed by the `df2` rows missing from `df1`, tagged
`"Base"`, each projected onto the report columns. -/
theorem compare_rows (df1 df2 : Table) :
    (compare_bidirectional df1 df2).rows =
      (df1.rows.filter (keep (idList df2))).map (reportRow df1 df2 "Comparer")
        ++ (df2.rows.filter (keep (idList df1))).map (reportRow df1 df2 "Base") := by
  show (fillCols columns_to_keep (combCols df1 df2, _)).2.map _ = _
  rw [fillCols_snd, List.map_map, List.map_append, List.map_map, List.map_map]
  congr 1
  · apply List.map_congr_left
    intro r _
    exact proj_fill_tagged df1 df2 "Comparer" r
  · apply List.map_congr_left
    intro r _
    exact proj_fill_tagged df1 df2 "Base" r

theorem vcontains_iff {l : List Value} {a : Value} : l.contains a = true ↔ a ∈ l := by
  simp [List.contains, List.elem_iff]

theorem getCell_mapCols (cs : List String) (f : String → Value) {c : String} (hc : c ∈ cs) :
    getCell (cs.map (fun c => (c, f c))) c = f c := by
  induction cs with
  | nil => exact absurd hc (List.not_mem_nil c)
  | cons d cs ih =>
    rw [List.map_cons, getCell_cons]
    by_cases  hd : d = c
    · rw [if_pos hd, hd]
    · rw [if_neg hd]
      exact ih (by rcases  List.mem_cons.mp hc with h | h; exact absurd h.symm hd; exact h)

theorem getCell_reportRow (df1 df2 : Table) (tag : String) (r : Row) {c : String}
    (hc : c ∈ columns_to_keep) :
    getCell (reportRow df1 df2 tag r) c =
      if c = "Missing In" then some tag
      else if inUnion df1 df2 c then getCell r c else some "" :=
  getCell_mapCols _ _ hc

theorem inUnion_po_left (df1 df2 : Table) (h1 : df1.cols.contains "PO #" = true) :
    inUnion df1 df2 "PO #" = true := by
  rw [inUnion, h1, Bool.true_or]

theorem inUnion_po_right (df1 df2 : Table) (h2 : df2.cols.contains "PO #" = true) :
    inUnion df1 df2 "PO #" = true := by
  rw [inUnion, h2, Bool.or_true]

theorem getCell_reportRow_po (df1 df2 : Table) (tag : String) (r : Row)
    (hu : inUnion df1 df2 "PO #" = true) :
    getCell (reportRow df1 df2 tag r) "PO #" = getCell r "PO #" := by
  rw [getCell_reportRow df1 df2 tag r (by decide), if_neg (by decide), if_pos hu]

theorem getCell_reportRow_mi (df1 df2 : Table) (tag : String) (r : Row) :
    getCell (reportRow df1 df2 tag r) "Missing In" = some tag := by
  rw [getCell_reportRow df1 df2 tag r (by decide), if_pos rfl]

theorem keep_iff (ids : List Value) (r : Row) :
    keep ids r = true ↔ getCell r "PO #" ∉ ids := by
  rw [keep, Bool.not_eq_true']
  constructor
  · intro h hmem
    rw [vcontains_iff.mpr hmem] at h
    cases h
  · intro h
    rw [← Bool.not_eq_true]
    exact fun hc => h (vcontains_iff.mp hc)

theorem dropMI_reportRow (df1 df2 : Table) (tag : String) (r : Row) :
    dropMI (reportRow df1 df2 tag r) =
      (columns_to_keep.filter (fun c => c != "Missing In")).map (fun c =>
        (c, if inUnion df1 df2 c then getCell r c else some "")) := by
  rw [dropMI, reportRow, List.filter_map]
  apply List.map_congr_left
  intro c hc
  have hne : c ≠ "Missing In" := by
    simpa using (List.mem_filter.mp hc).2
  rw [if_neg hne]

theorem taggedRows_compare_comparer (df1 df2 : Table) :
    taggedRows (compare_bidirectional df1 df2) "Comparer" =
      (df1.rows.filter (keep (idList df2))).map (reportRow df1 df2 "Comparer") := by
  rw [taggedRows, compare_rows, List.filter_append]
  have hself : List.filter (fun r => getCell r "Missing In" == some "Comparer")
      ((df1.rows.filter (keep (idList df2))).map (reportRow df1 df2 "Comparer")) =
      (df1.rows.filter (keep (idList df2))).map (reportRow df1 df2 "Comparer") := by
    apply List.filter_eq_self.mpr
    intro r hr
    obtain ⟨r0, _, rfl⟩ := List.mem_map.mp hr
    simp [getCell_reportRow_mi]
  have hnil : List.filter (fun r => getCell r "Missing In" == some "Comparer")
      ((df2.rows.filter (keep (idList df1))).map (reportRow df1 df2 "Base")) = [] := by
    apply List.filter_eq_nil_iff.mpr
    intro r hr
    obtain ⟨r0, _, rfl⟩ := List.mem_map.mp hr
    simp [getCell_reportRow_mi]
  rw [hself, hnil, List.append_nil]

theorem taggedRows_compare_base (df1 df2 : Table) :
    taggedRows (compare_bidirectional df1 df2) "Base" =
      (df2.rows.filter (keep (idList df1))).map (reportRow df1 df2 "Base") := by
  rw [taggedRows, compare_rows, List.filter_append]
  have hnil : List.filter (fun r => getCell r "Missing In" == some "Base")
      ((df1.rows.filter (keep (idList df2))).map (reportRow df1 df2 "Comparer")) = [] := by
    apply List.filter_eq_nil_iff.mpr
    intro r hr
    obtain ⟨r0, _, rfl⟩ := List.mem_map.mp hr
    simp [getCell_reportRow_mi]
  have hself : List.filter (fun r => getCell r "Missing In" == some "Base")
      ((df2.rows.filter (keep (idList df1))).map (reportRow df1 df2 "Base")) =
      (df2.rows.filter (keep (idList df1))).map (reportRow df1 df2 "Base") := by
    apply List.filter_eq_self.mpr
    intro r hr
    obtain ⟨r0, _, rfl⟩ := List.mem_map.mp hr
    simp [getCell_reportRow_mi]
  rw [hnil, hself, List.nil_append]

theorem inUnion_comm (df1 df2 : Table) (c : String) :
    inUnion df1 df2 c = inUnion df2 df1 c := by
  rw [inUnion, inUnion, Bool.or_comm]

theorem reportRow_fst (df1 df2 : Table) (tag : String) (r : Row) :
    (reportRow df1 df2 tag r).map Prod.fst = columns_to_keep := by
  rw [reportRow, List.map_map]
  exact List.map_id'' (fun _ => rfl) _

theorem extract_rows (df : Table) :
    (extract_features df).rows =
      ((df.rows.map (fun r => setCell r "PO #" (some (po_norm (getCell r "PO #"))))).filter
        nonBlankPO).map (fun r =>
        setCell (setCell r "Quarter Key" (quarterOf ((getCell r "PO #").getD "")))
          "Drug Category" (categoryOf ((getCell r "PO #").getD ""))) := rfl

theorem getCell_po_extractMap (r : Row) {x : Row}
    (hx : x = setCell (setCell r "Quarter Key" (quarterOf ((getCell r "PO #").getD "")))
      "Drug Category" (categoryOf ((getCell r "PO #").getD ""))) :
    getCell x "PO #" = getCell r "PO #" := by
  subst hx
  rw [getCell_setCell_ne _ _ (by decide), getCell_setCell_ne _ _ (by decide)]

/-- C8 support: every surviving row has a nonempty identifier. -/
theorem extract_nonblank (df : Table) :
    ∀ r ∈ (extract_features df).rows, ∃ s, getCell r "PO #" = some s ∧ s ≠ "" := by
  intro r hr
  rw [extract_rows] at hr
  obtain ⟨r1, hr1, rfl⟩ := List.mem_map.mp hr
  have hnb := (List.mem_filter.mp hr1).2
  rw [getCell_po_extractMap r1 rfl]
  rw [nonBlankPO] at hnb
  rcases  hpo : getCell r1 "PO #" with _ | s
  · rw [hpo] at hnb
    cases hnb
  · rw [hpo] at hnb
    exact ⟨s, rfl, by simpa using hnb⟩

/-- C8 support: exactly the rows whose normalized identifier is nonempty survive. -/
theorem extract_length (df : Table) :
    (extract_features df).rows.length =
      (df.rows.filter (fun r => po_norm (getCell r "PO #") != "")).length := by
  rw [extract_rows, List.length_map, List.filter_map, List.length_map]
  congr 1
  apply List.filter_congr
  intro r _
  rw [Function.comp_apply, nonBlankPO, getCell_setCell_self]

/-- C10 support: the `PO #` cell of every extracted row is the normalized
identifier of some source row. -/
theorem extract_po_normalized (df : Table) :
    ∀ r ∈ (extract_features df).rows, ∃ r0 ∈ df.rows,
      getCell r "PO #" = some (po_norm (getCell r0 "PO #")) := by
  intro r hr
  rw [extract_rows] at hr
  obtain ⟨r1, hr1, rfl⟩ := List.mem_map.mp hr
  obtain ⟨r0, hr0, rfl⟩ := List.mem_map.mp (List.mem_of_mem_filter hr1)
  refine ⟨r0, hr0, ?_⟩
  rw [getCell_po_extractMap _ rfl, getCell_setCell_self]

theorem getCell_dropQS (r : Row) {c : String} (h : c ≠ "Quarter Sort") :
    getCell (dropQS r) c = getCell r c := by
  induction r with
  | nil => rfl
  | cons p t ih =>
    rw [dropQS, List.filter_cons]
    by_cases  hp : p.1 = "Quarter Sort"
    · rw [if_neg (by simp [hp]), getCell_cons, if_neg (fun hc => h (hc.symm.trans hp)), ← dropQS, ih]
    · rw [if_pos (by simpa using hp), getCell_cons, getCell_cons, ← dropQS]
      by_cases  hpc : p.1 = c
      · rw [if_pos hpc, if_pos hpc]
      · rw [if_neg hpc, if_neg hpc, ih]

theorem sortKey_dropQS (r : Row) : sortKey (dropQS r) = sortKey r := by
  rw [sortKey, sortKey, getCell_dropQS _ (by decide), getCell_dropQS _ (by decide)]

theorem rowLe_dropQS {a b : Row} (h : rowLe a b) : rowLe (dropQS a) (dropQS b) := by
  rw [rowLe, sortKey_dropQS, sortKey_dropQS]
  exact h

/-! ## Claims -/

/-- C1: for every pair of tables carrying a `PO #` column, an identifier
occurring only in the base yields at least one report row with that
identifier tagged `"Comparer"`; an identifier occurring only in the
comparer yields at least one row tagged `"Base"`; an identifier occurring
in both tables yields no report row at all. -/
theorem compare_completeness (df1 df2 : Table)
    (h1 : df1.cols.contains "PO #" = true) (h2 : df2.cols.contains "PO #" = true)
    (v : Value) :
    ((v ∈ idList df1 ∧ v ∉ idList df2) →
      ∃ r ∈ (compare_bidirectional df1 df2).rows,
        getCell r "PO #" = v ∧ getCell r "Missing In" = some "Comparer") ∧
    ((v ∈ idList df2 ∧ v ∉ idList df1) →
      ∃ r ∈ (compare_bidirectional df1 df2).rows,
        getCell r "PO #" = v ∧ getCell r "Missing In" = some "Base") ∧
    ((v ∈ idList df1 ∧ v ∈ idList df2) →
      ∀ r ∈ (compare_bidirectional df1 df2).rows, getCell r "PO #" ≠ v) := by
  refine ⟨?_, ?_, ?_⟩
  · rintro ⟨hv1, hv2⟩
    obtain ⟨r0, hr0, hpo⟩ := List.mem_map.mp hv1
    refine ⟨reportRow df1 df2 "Comparer" r0, ?_, ?_, getCell_reportRow_mi ..⟩
    · rw [compare_rows]
      exact List.mem_append_left _ (List.mem_map_of_mem _
        (List.mem_filter.mpr ⟨hr0, (keep_iff ..).mpr (hpo ▸ hv2)⟩))
    · rw [getCell_reportRow_po _ _ _ _ (inUnion_po_left _ _ h1), hpo]
  · rintro ⟨hv1, hv2⟩
    obtain ⟨r0, hr0, hpo⟩ := List.mem_map.mp hv1
    refine ⟨reportRow df1 df2 "Base" r0, ?_, ?_, getCell_reportRow_mi ..⟩
    · rw [compare_rows]
      exact List.mem_append_right _ (List.mem_map_of_mem _
        (List.mem_filter.mpr ⟨hr0, (keep_iff ..).mpr (hpo ▸ hv2)⟩))
    · rw [getCell_reportRow_po _ _ _ _ (inUnion_po_right _ _ h2), hpo]
  · rintro ⟨hv1, hv2⟩ r hr
    rw [compare_rows] at hr
    rcases  List.mem_append.mp hr with hmem | hmem
    · obtain ⟨r0, hr0, rfl⟩ := List.mem_map.mp hmem
      have hkeep := (keep_iff ..).mp (List.mem_filter.mp hr0).2
      rw [getCell_reportRow_po _ _ _ _ (inUnion_po_left _ _ h1)]
      exact fun hcc => hkeep (hcc ▸ hv2)
    · obtain ⟨r0, hr0, rfl⟩ := List.mem_map.mp hmem
      have hkeep := (keep_iff ..).mp (List.mem_filter.mp hr0).2
      rw [getCell_reportRow_po _ _ _ _ (inUnion_po_left _ _ h1)]
      exact fun hcc => hkeep (hcc ▸ hv1)

/-- Witness for C1 on explicit tables: `"a"` occurs only in the base and
the report carries it tagged `"Comparer"`. -/
theorem compare_completeness_witness :
    ((some "a" : Value) ∈ idList exBase ∧ (some "a" : Value) ∉ idList exComp) ∧
      ∃ r ∈ (compare_bidirectional exBase exComp).rows,
        getCell r "PO #" = some "a" ∧ getCell r "Missing In" = some "Comparer" :=
  ⟨by decide,
    (compare_completeness exBase exComp (by decide) (by decide) (some "a")).1
      ⟨by decide, by decide⟩⟩

/-- Counterexample to C2 as stated: the claim places rows with an absent
category before rows with a present one, but pandas `sort_values` uses
`na_position='last'`, so `sort_df` puts the absent-category row after the
present-category row. -/
theorem sort_absent_category_counterexample :
    (sort_df exSortT).rows.map (fun r => getCell r "Drug Category") = [some "a", none] ∧
      (sort_df exSortT).rows.map (fun r => getCell r "Drug Category") ≠ [none, some "a"] := by
  constructor
  · decide
  · decide

/-- C2 (amended): `sort_df` stably sorts its rows by the composite key —
primarily by `Drug Category` ascending with absent categories placed
after all present ones, secondarily by the integer rank of `Quarter Key`
(digits after the leading letter; non-parseable or absent keys rank 0,
witnessed by the last conjunct) — and only permutes the rows, dropping
the transient `Quarter Sort` column. -/
theorem sort_spec (df : Table) :
    List.Sorted rowLe (sort_df df).rows ∧
      (sort_df df).rows.Perm (df.rows.map dropQS) ∧
      quarter_sort_key none = 0 := by
  refine ⟨?_, ?_, rfl⟩
  · exact List.Pairwise.map _ (fun a b => rowLe_dropQS)
      (List.sorted_insertionSort rowLe df.rows)
  · exact List.Perm.map _ (List.perm_insertionSort rowLe df.rows)

/-- Counterexample to C3 as stated: `DESCRIPTION` exists in the comparer
but not the base, so the base-side report row keeps a null (`NaN`) in
`DESCRIPTION` instead of being filled with the empty string. -/
theorem report_null_cell_counterexample :
    (compare_bidirectional exProjBase exProjComp).rows.map
        (fun r => getCell r "DESCRIPTION") = [none, some "d"] ∧
      getCell ((compare_bidirectional exProjBase exProjComp).rows.getD 0 [])
        "DESCRIPTION" ≠ some "" := by
  constructor
  · decide
  · decide

/-- C3 (amended): every report row carries exactly the six fixed columns
in order; a report column (other than `Missing In`) that occurs in
neither input table is filled with the empty string in every row; and no
row is dropped — the report length is the number of missing rows on both
sides.  (A column present in one input but absent from a given row stays
null rather than empty, per the counterexample.) -/
theorem report_columns (df1 df2 : Table) :
    (∀ r ∈ (compare_bidirectional df1 df2).rows, r.map Prod.fst = columns_to_keep) ∧
    (∀ c ∈ columns_to_keep, c ≠ "Missing In" → inUnion df1 df2 c = false →
      ∀ r ∈ (compare_bidirectional df1 df2).rows, getCell r c = some "") ∧
    (compare_bidirectional df1 df2).rows.length =
      (df1.rows.filter (keep (idList df2))).length
        + (df2.rows.filter (keep (idList df1))).length := by
  refine ⟨?_, ?_, ?_⟩
  · intro r hr
    rw [compare_rows] at hr
    rcases  List.mem_append.mp hr with hmem | hmem <;>
      obtain ⟨r0, _, rfl⟩ := List.mem_map.mp hmem <;>
      exact reportRow_fst ..
  · intro c hc hmi hu r hr
    rw [compare_rows] at hr
    rcases  List.mem_append.mp hr with hmem | hmem <;>
      obtain ⟨r0, _, rfl⟩ := List.mem_map.mp hmem <;>
      rw [getCell_reportRow _ _ _ _ hc, if_neg hmi, if_neg (by rw [hu]; simp)]
  · rw [compare_rows, List.length_append, List.length_map, List.length_map]

/-- Witness for C3 on explicit tables: `CREDIT AMT` occurs in neither
input, and every row of the report carries the empty string there; the
report keeps one row per missing row. -/
theorem report_columns_witness :
    (∀ r ∈ (compare_bidirectional exProjBase exProjComp).rows,
      getCell r "CREDIT AMT" = some "") ∧
    (compare_bidirectional exProjBase exProjComp).rows.length =
      (exProjBase.rows.filter (keep (idList exProjComp))).length
        + (exProjComp.rows.filter (keep (idList exProjBase))).length :=
  ⟨(report_columns exProjBase exProjComp).2.1 "CREDIT AMT" (by decide) (by decide) (by decide),
    (report_columns exProjBase exProjComp).2.2⟩

/-- C4: normalization is idempotent — applying
`add_spaces(clean_po(·))` twice yields the same identifier as applying
it once, for every string. -/
theorem normalize_idempotent (x : String) :
    po_norm (some (po_norm (some x))) = po_norm (some x) :=
  po_norm_idem (some x)

/-- C5: role-swap invariance — the `"Comparer"`-tagged rows of
`reconcile(A, B)` coincide, apart from the tag itself, with the
`"Base"`-tagged rows of `reconcile(B, A)`. -/
theorem compare_symmetry (A B : Table) :
    (taggedRows (compare_bidirectional A B) "Comparer").map dropMI =
      (taggedRows (compare_bidirectional B A) "Base").map dropMI := by
  rw [taggedRows_compare_comparer, taggedRows_compare_base, List.map_map, List.map_map]
  apply List.map_congr_left
  intro r _
  rw [Function.comp_apply, Function.comp_apply, dropMI_reportRow, dropMI_reportRow]
  apply List.map_congr_left
  intro c _
  rw [inUnion_comm]

/-- C6: the identifier is the pure function `po_norm` of the raw `PO #`
value, and two raw strings that agree up to whitespace placement and
letter case normalize to the same identifier. -/
theorem normalize_case_ws_invariant (x y : String)
    (h : removeWs (lowerL x.data) = removeWs (lowerL y.data)) :
    po_norm (some x) = po_norm (some y) :=
  po_norm_equiv h

/-- Witness for C6: `"Q101 ONMK drugA 5%"` and `"q101onmkdruga5%"`
differ only in whitespace and case and normalize identically. -/
theorem normalize_case_ws_invariant_witness :
    removeWs (lowerL ("Q101 ONMK drugA 5%" : String).data) =
        removeWs (lowerL ("q101onmkdruga5%" : String).data) ∧
      po_norm (some "Q101 ONMK drugA 5%") = po_norm (some "q101onmkdruga5%") :=
  ⟨by decide, normalize_case_ws_invariant _ _ (by decide)⟩

/-- C7: the report is the `"Comparer"`-tagged projection of the base
rows missing from the comparer, in base order, followed by the
`"Base"`-tagged projection of the comparer rows missing from the base,
in comparer order; the tags are as stated. -/
theorem compare_group_order (df1 df2 : Table) :
    (compare_bidirectional df1 df2).rows =
      (df1.rows.filter (keep (idList df2))).map (reportRow df1 df2 "Comparer")
        ++ (df2.rows.filter (keep (idList df1))).map (reportRow df1 df2 "Base") ∧
    (∀ r : Row, getCell (reportRow df1 df2 "Comparer" r) "Missing In" = some "Comparer") ∧
    (∀ r : Row, getCell (reportRow df1 df2 "Base" r) "Missing In" = some "Base") :=
  ⟨compare_rows df1 df2, fun r => getCell_reportRow_mi df1 df2 "Comparer" r,
    fun r => getCell_reportRow_mi df1 df2 "Base" r⟩

/-- C8: normalization is total (a null `PO #` maps to the empty
identifier), every surviving row of `extract_features` has a nonempty
identifier, and exactly the rows with a nonempty normalized identifier
survive — blank-identifier rows are silently filtered, never an error. -/
theorem extract_drops_blank_po (df : Table) :
    po_norm none = "" ∧
    (∀ r ∈ (extract_features df).rows, ∃ s, getCell r "PO #" = some s ∧ s ≠ "") ∧
    (extract_features df).rows.length =
      (df.rows.filter (fun r => po_norm (getCell r "PO #") != "")).length :=
  ⟨by decide, extract_nonblank df, extract_length df⟩

/-- Witness for C8: a table with a null `PO #` row keeps only the
normalizable row, whose identifier is nonempty. -/
theorem extract_drops_blank_po_witness :
    po_norm none = "" ∧
      (∃ s, getCell ((extract_features exNullPO).rows.getD 0 []) "PO #" = some s ∧ s ≠ "") ∧
      (extract_features exNullPO).rows.length =
        (exNullPO.rows.filter (fun r => po_norm (getCell r "PO #") != "")).length :=
  ⟨(extract_drops_blank_po exNullPO).1,
    (extract_drops_blank_po exNullPO).2.1 _ (by decide),
    (extract_drops_blank_po exNullPO).2.2⟩

/-- C9: in the alternate single-direction diff mode, tables sharing no
column names produce the hard `"no common columns"` error, which is
distinct from any successful (for instance empty) report. -/
theorem diff_mode_no_common_columns (base comparer : Table)
    (h : ∀ c ∈ base.cols, c ∉ comparer.cols) :
    diff_mode base comparer = .error "no common columns" ∧
      ∀ t : Table, diff_mode base comparer ≠ .ok t := by
  have hempty : (base.cols.filter (fun c => comparer.cols.contains c)).isEmpty = true := by
    rw [List.isEmpty_iff]
    apply List.filter_eq_nil_iff.mpr
    intro c hc hcon
    exact h c hc (scontains_iff.mp hcon)
  have herr : diff_mode base comparer = .error "no common columns" := by
    rw [diff_mode]
    exact if_pos hempty
  exact ⟨herr, fun t ht => by rw [herr] at ht; cases ht⟩

/-- Witness for C9 on explicit disjoint-column tables. -/
theorem diff_mode_no_common_columns_witness :
    diff_mode exDisjBase exDisjComp = .error "no common columns" ∧
      ∀ t : Table, diff_mode exDisjBase exDisjComp ≠ .ok t :=
  diff_mode_no_common_columns exDisjBase exDisjComp (by decide)

theorem contains_extract_cols (df : Table) (h : df.cols.contains "PO #" = true) :
    (extract_features df).cols.contains "PO #" = true := by
  show (addColL (addColL df.cols "Quarter Key") "Drug Category").contains "PO #" = true
  rw [contains_addColL_ne _ (by decide), contains_addColL_ne _ (by decide), h]

/-- C10: the `PO #` cell of every row of the normalized table, and of
every report row built from two normalized tables, is the normalized
identifier of some raw source row — the raw `PO #` text is overwritten
in place and not preserved in the output. -/
theorem po_column_is_normalized (dfA dfB : Table)
    (hA : dfA.cols.contains "PO #" = true) (hB : dfB.cols.contains "PO #" = true) :
    (∀ r ∈ (extract_features dfA).rows, ∃ r0 ∈ dfA.rows,
      getCell r "PO #" = some (po_norm (getCell r0 "PO #"))) ∧
    (∀ r ∈ (compare_bidirectional (extract_features dfA) (extract_features dfB)).rows,
      ∃ r0, (r0 ∈ dfA.rows ∨ r0 ∈ dfB.rows) ∧
        getCell r "PO #" = some (po_norm (getCell r0 "PO #"))) := by
  refine ⟨extract_po_normalized dfA, ?_⟩
  intro r hr
  rw [compare_rows] at hr
  rcases  List.mem_append.mp hr with hm | hm
  · obtain ⟨r1, hr1, rfl⟩ := List.mem_map.mp hm
    obtain ⟨r0, hr0, hpo⟩ := extract_po_normalized dfA _ (List.mem_of_mem_filter hr1)
    exact ⟨r0, Or.inl hr0, by
      rw [getCell_reportRow_po _ _ _ _
        (inUnion_po_left _ _ (contains_extract_cols dfA hA)), hpo]⟩
  · obtain ⟨r1, hr1, rfl⟩ := List.mem_map.mp hm
    obtain ⟨r0, hr0, hpo⟩ := extract_po_normalized dfB _ (List.mem_of_mem_filter hr1)
    exact ⟨r0, Or.inr hr0, by
      rw [getCell_reportRow_po _ _ _ _
        (inUnion_po_right _ _ (contains_extract_cols dfB hB)), hpo]⟩

/-- Witness for C10: the first report row of two normalized raw tables
carries a normalized identifier of one of the raw rows. -/
theorem po_column_is_normalized_witness :
    ∃ r0, (r0 ∈ exRawBase.rows ∨ r0 ∈ exRawComp.rows) ∧
      getCell ((compare_bidirectional (extract_features exRawBase)
          (extract_features exRawComp)).rows.getD 0 []) "PO #" =
        some (po_norm (getCell r0 "PO #")) :=
  (po_column_is_normalized exRawBase exRawComp (by decide) (by decide)).2 _ (by decide)
